import Mathlib

/-!
Shallow embedding of `sentry_nodestore_mongodb/backend.py` (`MongoNodeStorage`):
a tiered blob store with a Mongo primary tier and an optional S3 archival tier,
transparent compression, and TTL-index provisioning at construction.

Mutable state is the pair of external tiers; every engine operation is a pure
state transformer that additionally reports the ordered trace of primitive
mutations it performed and whether an exception propagated to the caller.
-/

/-- Byte strings are modelled as lists of naturals. -/
abbrev Bytes := List Nat

/-- A compression codec (`sentry.utils.codecs.Codec`): an encode/decode pair of
byte transforms.  The concrete `ZstdCodec` is an external dependency of the
backend, so the codec instance is kept abstract in the configuration. -/
structure Codec where
  encode : Bytes → Bytes
  decode : Bytes → Bytes

/-- A primary-tier document as built by `_set_bytes`:
`{'_id': id, 'data': data, 'content_encoding': tag, 'created_day': day}`
(the `_id` is the key of the store map, so it is not repeated here). -/
structure Doc where
  data : Bytes
  content_encoding : String
  created_day : Nat
deriving DecidableEq

/-- An archival-tier object: body bytes plus the optional `ContentEncoding`
metadata returned by `get_object` (absent metadata reads as `none`). -/
structure S3Obj where
  body : Bytes
  contentEncoding : Option String
deriving DecidableEq

/-- The two external tiers: the Mongo collection keyed by `_id` and the S3
bucket keyed by the derived object key. -/
structure State where
  mongo : String → Option Doc
  s3 : String → Option S3Obj

/-- Engine configuration: the `compression` strategy name (`""` models the
falsy/disabled setting), the external zstd codec instance, the `read_from_s3`
flag and the optional `bucket_path`. -/
structure Config where
  compression : String
  zstd : Codec
  read_from_s3 : Bool
  bucket_path : Option String

/-- `MongoNodeStorage.compression_strategies = {"zstd": ZstdCodec()}` as a
name lookup (`dict.get` semantics: unknown names give `none`). -/
def compression_strategies (cfg : Config) (name : String) : Option Codec :=
  if name = "zstd" then some cfg.zstd else none

/-- Primitive mutating effects issued against the tiers, in program order. -/
inductive Event
  | mongoInsert (id : String) (doc : Doc)
  | mongoUpdate (id : String) (doc : Doc)
  | mongoDeleteOne (id : String)
  | mongoDeleteMany (ids : List String)
  | s3Delete (key : String)
deriving DecidableEq

/-- Apply one primitive effect to the tier state. -/
def applyEvent (st : State) : Event → State
  | .mongoInsert id doc => { st with mongo := fun k => if k = id then some doc else st.mongo k }
  | .mongoUpdate id doc => { st with mongo := fun k => if k = id then some doc else st.mongo k }
  | .mongoDeleteOne id => { st with mongo := fun k => if k = id then none else st.mongo k }
  | .mongoDeleteMany ids => { st with mongo := fun k => if k ∈ ids then none else st.mongo k }
  | .s3Delete key => { st with s3 := fun k => if k = key then none else st.s3 k }

/-- Apply a trace of effects left to right. -/
def applyEvents (st : State) (es : List Event) : State := es.foldl applyEvent st

/-- The observable outcome of one engine operation: the post-call tier state,
the ordered trace of mutations performed, and the value handed back to the
caller (`Except.error ()` models an exception propagating out of the call). -/
structure RunResult (α : Type) where
  state : State
  trace : List Event
  result : Except Unit α

/-- `datetime.combine(datetime.utcnow().date(), datetime.min.time())`:
truncate a timestamp in seconds to its UTC midnight. -/
def dayTruncate (now : Nat) : Nat := now / 86400 * 86400

/-- The compression branch of `_set_bytes`: when a compression name is
configured, run the codec and adopt the encoded form together with the name as
tag when `len(compressed) <= len(data)`, otherwise keep the raw bytes and an
empty tag.  `none` models the `KeyError` raised on an unregistered name. -/
def encodePolicy (cfg : Config) (payload : Bytes) : Option (Bytes × String) :=
  if cfg.compression = "" then some (payload, "")
  else
    match compression_strategies cfg cfg.compression with
    | none => none
    | some codec =>
      if (codec.encode payload).length ≤ payload.length then
        some (codec.encode payload, cfg.compression)
      else some (payload, "")

/-- `_set_bytes`: select data and tag by the compression policy, stamp
`created_day` with the current UTC day, and `insert_one` the document, falling
back to `update_one` on `DuplicateKeyError` (so: insert when the id is absent,
full replace when it is present). -/
def set_bytes (cfg : Config) (now : Nat) (st : State) (id : String) (payload : Bytes) :
    Option (State × List Event) :=
  match encodePolicy cfg payload with
  | none => none
  | some (data, tag) =>
    let doc : Doc := ⟨data, tag, dayTruncate now⟩
    let ev : Event := if (st.mongo id).isSome then .mongoUpdate id doc else .mongoInsert id doc
    some (applyEvent st ev, [ev])

/-- Behaviour of one `s3_client.delete_object` call on a present key,
abstracting the external store and concurrent actors: plain success, a
`NoSuchKey` raised because a concurrent migration already removed the key, or
any other (transport) failure. -/
inductive S3DeleteFault
  | ok
  | raceNotFound
  | transport
deriving DecidableEq

/-- `__get_key_for_id`: prepend `bucket_path + "/"` when a path is set. -/
def get_key_for_id (cfg : Config) (id : String) : String :=
  match cfg.bucket_path with
  | none => id
  | some p => p ++ "/" ++ id

/-- Decode an archival object per its `ContentEncoding` metadata: absent or
unregistered tags return the body unmodified. -/
def decodeObj (cfg : Config) (obj : S3Obj) : Bytes :=
  match obj.contentEncoding with
  | none => obj.body
  | some t =>
    match compression_strategies cfg t with
    | some c => c.decode obj.body
    | none => obj.body

/-- Decode a primary document per its `content_encoding` tag: empty or
unregistered tags return the stored bytes unmodified. -/
def decodeDoc (cfg : Config) (doc : Doc) : Bytes :=
  match compression_strategies cfg doc.content_encoding with
  | some c => c.decode doc.data
  | none => doc.data

/-- `__read_from_bucket`: fetch the object (a `NoSuchKey` from `get_object`
returns `None`); decode it; then, inside one `try` that swallows only
`NoSuchKey`, first `delete_object` the archival copy and then `_set_bytes` the
decoded value into the primary tier; return the decoded value.  A `NoSuchKey`
raised by the delete skips the `_set_bytes` call; any other delete failure, or
a `KeyError` from `_set_bytes`, propagates out of the read. -/
def read_from_bucket (cfg : Config) (now : Nat) (faults : String → S3DeleteFault)
    (st : State) (id : String) : RunResult (Option Bytes) :=
  let key := get_key_for_id cfg id
  match st.s3 key with
  | none => ⟨st, [], .ok none⟩
  | some obj =>
    let value := decodeObj cfg obj
    match faults key with
    | .transport => ⟨st, [], .error ()⟩
    | .raceNotFound => ⟨applyEvent st (.s3Delete key), [.s3Delete key], .ok (some value)⟩
    | .ok =>
      let st1 := applyEvent st (.s3Delete key)
      match set_bytes cfg now st1 id value with
      | none => ⟨st1, [.s3Delete key], .error ()⟩
      | some (st2, evs) => ⟨st2, .s3Delete key :: evs, .ok (some value)⟩

/-- `_get_bytes`: point lookup in the primary tier, decoding per the stored
tag; on a miss, fall back to the archival tier when `read_from_s3` is set. -/
def get_bytes (cfg : Config) (now : Nat) (faults : String → S3DeleteFault)
    (st : State) (id : String) : RunResult (Option Bytes) :=
  match st.mongo id with
  | some doc => ⟨st, [], .ok (some (decodeDoc cfg doc))⟩
  | none =>
    if cfg.read_from_s3 then read_from_bucket cfg now faults st id
    else ⟨st, [], .ok none⟩

/-- Python `dict` membership test over the insertion-ordered result list. -/
def dictHasKey (d : List (String × Option Bytes)) (k : String) : Bool :=
  d.any (fun p => p.1 = k)

/-- Python `dict` assignment `d[k] = v`: update in place when the key exists,
append otherwise. -/
def dictSet (d : List (String × Option Bytes)) (k : String) (v : Option Bytes) :
    List (String × Option Bytes) :=
  if dictHasKey d k then d.map (fun p => if p.1 = k then (k, v) else p)
  else d ++ [(k, v)]

/-- Python `dict` read `d[k]` as an option (first matching entry). -/
def dlookup (d : List (String × Option Bytes)) (k : String) : Option (Option Bytes) :=
  match d with
  | [] => none
  | p :: rest => if p.1 = k then some p.2 else dlookup rest k

/-- Keys of a result dict, in insertion order. -/
def dkeys (d : List (String × Option Bytes)) : List String := d.map Prod.fst

/-- The archival fallback loop of `_get_bytes_multi`: for each missing id in
order, `__read_from_bucket` it (threading the tier state, since the read
migrates) and store the result; an exception from a read propagates. -/
def multiBucketLoop (cfg : Config) (now : Nat) (faults : String → S3DeleteFault) :
    State → List Event → List (String × Option Bytes) → List String →
    RunResult (List (String × Option Bytes))
  | st, tr, res, [] => ⟨st, tr, .ok res⟩
  | st, tr, res, id :: rest =>
    let r := read_from_bucket cfg now faults st id
    match r.result with
    | .error e => ⟨r.state, tr ++ r.trace, .error e⟩
    | .ok v => multiBucketLoop cfg now faults r.state (tr ++ r.trace) (dictSet res id v) rest

/-- Final pass of `_get_bytes_multi`: every input id still missing from the
result dict is mapped to `None`. -/
def fillAbsent (res : List (String × Option Bytes)) (ids : List String) :
    List (String × Option Bytes) :=
  ids.foldl (fun r i => if dictHasKey r i then r else r ++ [(i, none)]) res

/-- `_get_bytes_multi`: one batched `$in` query against the primary tier
(yielding one document per distinct present id), decode each hit per its own
tag; when `read_from_s3` is set, sequentially `__read_from_bucket` every id
missing from the result (list of missing ids computed before the loop); then
map every still-missing id to `None`. -/
def get_bytes_multi (cfg : Config) (now : Nat) (faults : String → S3DeleteFault)
    (st : State) (ids : List String) : RunResult (List (String × Option Bytes)) :=
  let docs := ids.dedup.filterMap (fun i => (st.mongo i).map (fun d => (i, d)))
  let res1 := docs.foldl (fun r p => dictSet r p.1 (some (decodeDoc cfg p.2))) []
  if cfg.read_from_s3 then
    let missing := ids.filter (fun i => !(dictHasKey res1 i))
    let r := multiBucketLoop cfg now faults st [] res1 missing
    match r.result with
    | .error e => ⟨r.state, r.trace, .error e⟩
    | .ok res2 => ⟨r.state, r.trace, .ok (fillAbsent res2 ids)⟩
  else ⟨st, [], .ok (fillAbsent res1 ids)⟩

/-- `cleanup`: `return None` — no query, no mutation, no error. -/
def cleanup (st : State) (cutoff_timestamp : Int) : RunResult Unit :=
  ⟨st, [], .ok ()⟩

/-- `delete`: `delete_one({'_id': id})` against the primary tier only. -/
def delete (st : State) (id : String) : RunResult Unit :=
  ⟨applyEvent st (.mongoDeleteOne id), [.mongoDeleteOne id], .ok ()⟩

/-- `delete_multi`: `delete_many({'_id': {'$in': id_list}})` against the
primary tier only. -/
def delete_multi (st : State) (id_list : List String) : RunResult Unit :=
  ⟨applyEvent st (.mongoDeleteMany id_list), [.mongoDeleteMany id_list], .ok ()⟩

/-- Does `needle` start `haystack`? -/
def listIsPre (needle haystack : List Char) : Bool :=
  match needle, haystack with
  | [], _ => true
  | _ :: _, [] => false
  | a :: as, b :: bs => a = b && listIsPre as bs

/-- Python `needle in haystack` on strings, via char lists. -/
def containsSub (needle haystack : List Char) : Bool :=
  match haystack with
  | [] => listIsPre needle []
  | _ :: bs => listIsPre needle haystack || containsSub needle bs

/-- Python truthiness of the `default_ttl_days` argument (`None` and `0` are
falsy). -/
def ttlTruthy : Option Nat → Bool
  | none => false
  | some n => n != 0

/-- Behaviour of one `create_index` call against the external collection. -/
inductive CreateIndexOutcome
  | ok
  | opFailure (msg : String)
  | otherFailure (msg : String)
deriving DecidableEq

/-- What the TTL-provisioning block of `__init__` ended up doing. -/
inductive TtlResult
  | skipped
  | created
  | recreated
  | failureSwallowed
deriving DecidableEq

/-- The TTL-index block of `MongoNodeStorage.__init__`: when `default_ttl_days`
is truthy, `create_index`; on an `OperationFailure` whose message contains
"already exists with different options", drop the index and recreate it (a
failure of that second sequence propagates); any other `OperationFailure` is
caught and the `if` body is simply not entered; exceptions that are not
`OperationFailure` propagate.  `first` is the behaviour of the initial
`create_index`, `second` that of the drop-and-recreate sequence. -/
def provision_ttl_index (default_ttl_days : Option Nat)
    (first second : CreateIndexOutcome) : Except String TtlResult :=
  if ttlTruthy default_ttl_days then
    match first with
    | .ok => .ok .created
    | .opFailure msg =>
      if containsSub "already exists with different options".toList msg.toList then
        match second with
        | .ok => .ok .recreated
        | .opFailure m2 => .error m2
        | .otherFailure m2 => .error m2
      else .ok .failureSwallowed
    | .otherFailure msg => .error msg
  else .ok .skipped

/-- The identity codec: a legal codec (decode is a left inverse of encode)
whose output length always equals its input length. -/
def idCodec : Codec := ⟨fun b => b, fun b => b⟩

/-- Concrete configuration: compression disabled, archival tier enabled, no
bucket path. -/
def cfgC : Config := ⟨"", idCodec, true, none⟩

/-- Concrete configuration: compression `"zstd"` (bound to `idCodec`),
archival tier enabled, no bucket path. -/
def cfgZ : Config := ⟨"zstd", idCodec, true, none⟩

/-- Fault oracle: every archival delete succeeds. -/
def noFaults : String → S3DeleteFault := fun _ => .ok

/-- Fault oracle: every archival delete fails with a transport error. -/
def faultT : String → S3DeleteFault := fun _ => .transport

/-- Fault oracle: every archival delete raises `NoSuchKey`. -/
def faultNF : String → S3DeleteFault := fun _ => .raceNotFound

/-- The empty tier state. -/
def emptySt : State := ⟨fun _ => none, fun _ => none⟩

/-- Concrete state: primary tier empty, archival tier holding key "a". -/
def stA : State := ⟨fun _ => none, fun k => if k = "a" then some ⟨[1, 2], none⟩ else none⟩

/-- Concrete state: primary tier empty, archival tier holding key "b". -/
def stB : State := ⟨fun _ => none, fun k => if k = "b" then some ⟨[3], none⟩ else none⟩

/-- With compression disabled, the policy stores raw bytes with an empty tag. -/
theorem encodePolicy_empty (cfg : Config) (v : Bytes) (h : cfg.compression = "") :
    encodePolicy cfg v = some (v, "") := by
  unfold encodePolicy
  rw [h]
  simp

/-- With `compression = "zstd"`, the policy reduces to the length comparison of
`_set_bytes`. -/
theorem encodePolicy_zstd (cfg : Config) (v : Bytes) (h : cfg.compression = "zstd") :
    encodePolicy cfg v =
      if (cfg.zstd.encode v).length ≤ v.length then some (cfg.zstd.encode v, "zstd")
      else some (v, "") := by
  unfold encodePolicy compression_strategies
  rw [h]
  simp

/-- With an empty or registered compression name, the write path never raises. -/
theorem encodePolicy_total (cfg : Config) (v : Bytes)
    (hc : cfg.compression = "" ∨ cfg.compression = "zstd") :
    ∃ p, encodePolicy cfg v = some p := by
  rcases hc with h | h
  · exact ⟨(v, ""), encodePolicy_empty cfg v h⟩
  · rw [encodePolicy_zstd cfg v h]
    by_cases hle : (cfg.zstd.encode v).length ≤ v.length
    · exact ⟨(cfg.zstd.encode v, "zstd"), by rw [if_pos hle]⟩
    · exact ⟨(v, ""), by rw [if_neg hle]⟩

/-- Shape of a successful `_set_bytes`: the stored document carries the policy
output and the truncated current day, the archival tier is untouched, and on a
fresh id the issued effect is an insert. -/
theorem set_bytes_eq (cfg : Config) (now : Nat) (st : State) (id : String) (v : Bytes)
    (data : Bytes) (tag : String) (he : encodePolicy cfg v = some (data, tag)) :
    ∃ ev, set_bytes cfg now st id v =
      some (⟨fun k => if k = id then some ⟨data, tag, dayTruncate now⟩ else st.mongo k, st.s3⟩,
            [ev]) ∧
      (st.mongo id = none → ev = Event.mongoInsert id ⟨data, tag, dayTruncate now⟩) := by
  unfold set_bytes
  rw [he]
  cases h : (st.mongo id).isSome
  · exact ⟨Event.mongoInsert id ⟨data, tag, dayTruncate now⟩, by simp [h, applyEvent], fun _ => rfl⟩
  · refine ⟨Event.mongoUpdate id ⟨data, tag, dayTruncate now⟩, by simp [h, applyEvent], fun hn => ?_⟩
    rw [hn] at h
    simp at h

/-- A successful `_set_bytes` never touches the archival tier. -/
theorem set_bytes_s3 (cfg : Config) (now : Nat) (st : State) (id : String) (v : Bytes)
    (st' : State) (tr : List Event) (h : set_bytes cfg now st id v = some (st', tr)) :
    st'.s3 = st.s3 := by
  unfold set_bytes at h
  cases he : encodePolicy cfg v with
  | none => rw [he] at h; exact absurd h (by simp)
  | some p =>
    rw [he] at h
    cases hb : (st.mongo id).isSome <;> simp [hb, applyEvent] at h <;>
      rw [← h.1]

/-- `__read_from_bucket` on an archival miss: no effect, `None` returned. -/
theorem read_from_bucket_miss_eq (cfg : Config) (now : Nat) (faults : String → S3DeleteFault)
    (st : State) (id : String) (hs : st.s3 (get_key_for_id cfg id) = none) :
    read_from_bucket cfg now faults st id = ⟨st, [], .ok none⟩ := by
  unfold read_from_bucket
  simp only [hs]

/-- `__read_from_bucket` when the archival delete fails with a transport error:
the exception propagates out of the read and nothing was mutated. -/
theorem read_from_bucket_transport_eq (cfg : Config) (now : Nat)
    (faults : String → S3DeleteFault) (st : State) (id : String) (obj : S3Obj)
    (hs : st.s3 (get_key_for_id cfg id) = some obj)
    (hf : faults (get_key_for_id cfg id) = .transport) :
    read_from_bucket cfg now faults st id = ⟨st, [], .error ()⟩ := by
  unfold read_from_bucket
  simp only [hs, hf]

/-- `__read_from_bucket` when the archival delete raises `NoSuchKey`: the read
still returns the decoded value, but `_set_bytes` is skipped, so the primary
tier is untouched. -/
theorem read_from_bucket_race_eq (cfg : Config) (now : Nat)
    (faults : String → S3DeleteFault) (st : State) (id : String) (obj : S3Obj)
    (hs : st.s3 (get_key_for_id cfg id) = some obj)
    (hf : faults (get_key_for_id cfg id) = .raceNotFound) :
    read_from_bucket cfg now faults st id =
      ⟨⟨st.mongo, fun k => if k = get_key_for_id cfg id then none else st.s3 k⟩,
       [Event.s3Delete (get_key_for_id cfg id)],
       .ok (some (decodeObj cfg obj))⟩ := by
  unfold read_from_bucket
  simp only [hs, hf]
  rfl

/-- The successful migration path of `__read_from_bucket` on a fresh primary
id: the archival delete is performed first, then the insert of the re-encoded
document stamped with the current day; the decoded value is returned. -/
theorem read_from_bucket_migration_eq (cfg : Config) (now : Nat)
    (faults : String → S3DeleteFault) (st : State) (id : String) (obj : S3Obj)
    (data : Bytes) (tag : String)
    (hs : st.s3 (get_key_for_id cfg id) = some obj)
    (hf : faults (get_key_for_id cfg id) = .ok)
    (hm : st.mongo id = none)
    (he : encodePolicy cfg (decodeObj cfg obj) = some (data, tag)) :
    read_from_bucket cfg now faults st id =
      ⟨⟨fun k => if k = id then some ⟨data, tag, dayTruncate now⟩ else st.mongo k,
        fun k => if k = get_key_for_id cfg id then none else st.s3 k⟩,
       [Event.s3Delete (get_key_for_id cfg id),
        Event.mongoInsert id ⟨data, tag, dayTruncate now⟩],
       .ok (some (decodeObj cfg obj))⟩ := by
  unfold read_from_bucket
  simp only [hs, hf]
  unfold set_bytes
  simp only [he, applyEvent, hm, Option.isSome_none, Bool.false_eq_true, if_false]

/-- On a primary miss with the archival tier enabled, `_get_bytes` is exactly
the archival fallback. -/
theorem get_bytes_miss (cfg : Config) (now : Nat) (faults : String → S3DeleteFault)
    (st : State) (id : String) (hm : st.mongo id = none) (hrs : cfg.read_from_s3 = true) :
    get_bytes cfg now faults st id = read_from_bucket cfg now faults st id := by
  unfold get_bytes
  rw [hm, hrs]
  simp

/-- A primary hit in `_get_bytes`: decode per the stored tag, no effects. -/
theorem get_bytes_hit (cfg : Config) (now : Nat) (faults : String → S3DeleteFault)
    (st : State) (id : String) (doc : Doc) (h : st.mongo id = some doc) :
    get_bytes cfg now faults st id = ⟨st, [], .ok (some (decodeDoc cfg doc))⟩ := by
  unfold get_bytes
  simp only [h]

/-- Decoding a document produced by the write policy recovers the payload,
provided the codec decode is a left inverse of its encode. -/
theorem encodePolicy_decodeDoc (cfg : Config) (v : Bytes) (data : Bytes) (tag : String)
    (day : Nat) (hc : cfg.compression = "" ∨ cfg.compression = "zstd")
    (hinv : ∀ x, cfg.zstd.decode (cfg.zstd.encode x) = x)
    (he : encodePolicy cfg v = some (data, tag)) :
    decodeDoc cfg ⟨data, tag, day⟩ = v := by
  rcases hc with h | h
  · rw [encodePolicy_empty cfg v h] at he
    simp only [Option.some.injEq, Prod.mk.injEq] at he
    obtain ⟨hd, ht⟩ := he
    subst hd; subst ht
    simp [decodeDoc, compression_strategies]
  · rw [encodePolicy_zstd cfg v h] at he
    by_cases hle : (cfg.zstd.encode v).length ≤ v.length
    · rw [if_pos hle] at he
      simp only [Option.some.injEq, Prod.mk.injEq] at he
      obtain ⟨hd, ht⟩ := he
      subst hd; subst ht
      simp [decodeDoc, compression_strategies, hinv]
    · rw [if_neg hle] at he
      simp only [Option.some.injEq, Prod.mk.injEq] at he
      obtain ⟨hd, ht⟩ := he
      subst hd; subst ht
      simp [decodeDoc, compression_strategies]

/-- C2 (counterexample): at a concrete archival-only id, the first effect of
the single-id get migration is the archival delete, not the primary upsert,
and after that first effect the value is present in neither tier. -/
theorem migration_order_cex :
    (get_bytes cfgC 7 noFaults stB "b").trace =
      [Event.s3Delete "b", Event.mongoInsert "b" ⟨[3], "", 0⟩] ∧
    (applyEvents stB ((get_bytes cfgC 7 noFaults stB "b").trace.take 1)).mongo "b" = none ∧
    (applyEvents stB ((get_bytes cfgC 7 noFaults stB "b").trace.take 1)).s3 "b" = none :=
  ⟨rfl, rfl, rfl⟩

/-- C2 (amended): in the single-id get migration path the archival delete is
attempted before the primary upsert of the decoded value, so the transient
dual state an observer can see is the value present in neither tier; the read
still returns the decoded value and ends with the document in the primary
tier. -/
theorem migration_delete_precedes_upsert (cfg : Config) (now : Nat)
    (faults : String → S3DeleteFault) (st : State) (id : String) (obj : S3Obj)
    (data : Bytes) (tag : String)
    (hrs : cfg.read_from_s3 = true) (hm : st.mongo id = none)
    (hs : st.s3 (get_key_for_id cfg id) = some obj)
    (hf : faults (get_key_for_id cfg id) = .ok)
    (he : encodePolicy cfg (decodeObj cfg obj) = some (data, tag)) :
    (get_bytes cfg now faults st id).trace =
      [Event.s3Delete (get_key_for_id cfg id),
       Event.mongoInsert id ⟨data, tag, dayTruncate now⟩] ∧
    (applyEvents st ((get_bytes cfg now faults st id).trace.take 1)).mongo id = none ∧
    (applyEvents st ((get_bytes cfg now faults st id).trace.take 1)).s3
        (get_key_for_id cfg id) = none ∧
    (get_bytes cfg now faults st id).result = .ok (some (decodeObj cfg obj)) := by
  rw [get_bytes_miss cfg now faults st id hm hrs,
      read_from_bucket_migration_eq cfg now faults st id obj data tag hs hf hm he]
  refine ⟨rfl, ?_, ?_, rfl⟩
  · simpa [applyEvents, applyEvent] using hm
  · simp [applyEvents, applyEvent]

/-- Witness for the amended C2 at a concrete archival-only id. -/
theorem migration_delete_precedes_upsert_witness :
    (get_bytes cfgC 7 noFaults stA "a").trace =
      [Event.s3Delete (get_key_for_id cfgC "a"),
       Event.mongoInsert "a" ⟨[1, 2], "", dayTruncate 7⟩] ∧
    (applyEvents stA ((get_bytes cfgC 7 noFaults stA "a").trace.take 1)).mongo "a" = none ∧
    (applyEvents stA ((get_bytes cfgC 7 noFaults stA "a").trace.take 1)).s3
        (get_key_for_id cfgC "a") = none ∧
    (get_bytes cfgC 7 noFaults stA "a").result = .ok (some (decodeObj cfgC ⟨[1, 2], none⟩)) :=
  migration_delete_precedes_upsert cfgC 7 noFaults stA "a" ⟨[1, 2], none⟩ [1, 2] ""
    rfl rfl rfl rfl rfl

/-- C3 (counterexample): when the archival delete fails with a transport error
at a concrete archival-only id, the whole get raises instead of returning the
decoded value. -/
theorem migration_delete_transport_cex :
    (get_bytes cfgC 0 faultT stB "b").result = .error () := rfl

/-- C3 (amended): a non-not-found failure of the archival delete propagates
and the whole get fails (and the migration upsert never happens); only a
not-found result from the archival delete is swallowed, in which case the read
returns the decoded value but the primary upsert is also skipped. -/
theorem migration_delete_failure_semantics (cfg : Config) (now : Nat)
    (faults : String → S3DeleteFault) (st : State) (id : String) (obj : S3Obj)
    (hrs : cfg.read_from_s3 = true) (hm : st.mongo id = none)
    (hs : st.s3 (get_key_for_id cfg id) = some obj) :
    (faults (get_key_for_id cfg id) = .transport →
      (get_bytes cfg now faults st id).result = .error () ∧
      (get_bytes cfg now faults st id).state.mongo id = none) ∧
    (faults (get_key_for_id cfg id) = .raceNotFound →
      (get_bytes cfg now faults st id).result = .ok (some (decodeObj cfg obj)) ∧
      (get_bytes cfg now faults st id).state.mongo id = none) := by
  constructor <;> intro hf
  · rw [get_bytes_miss cfg now faults st id hm hrs,
        read_from_bucket_transport_eq cfg now faults st id obj hs hf]
    exact ⟨rfl, hm⟩
  · rw [get_bytes_miss cfg now faults st id hm hrs,
        read_from_bucket_race_eq cfg now faults st id obj hs hf]
    exact ⟨rfl, hm⟩

/-- Witness for the amended C3 at a concrete archival-only id under the
always-transport-failing delete oracle. -/
theorem migration_delete_failure_semantics_witness :
    (faultT (get_key_for_id cfgC "b") = .transport →
      (get_bytes cfgC 0 faultT stB "b").result = .error () ∧
      (get_bytes cfgC 0 faultT stB "b").state.mongo "b" = none) ∧
    (faultT (get_key_for_id cfgC "b") = .raceNotFound →
      (get_bytes cfgC 0 faultT stB "b").result = .ok (some (decodeObj cfgC ⟨[3], none⟩)) ∧
      (get_bytes cfgC 0 faultT stB "b").state.mongo "b" = none) :=
  migration_delete_failure_semantics cfgC 0 faultT stB "b" ⟨[3], none⟩ rfl rfl rfl

/-- C4 (counterexample): with a codec whose output length equals its input
length, `_set_bytes` stores a non-empty `content_encoding` tag even though the
encoded form is not strictly smaller than the original payload. -/
theorem compression_strict_guard_cex :
    ((set_bytes cfgZ 0 emptySt "a" [0]).map
      (fun p => (p.1.mongo "a").map Doc.content_encoding)) = some (some "zstd") ∧
    ¬ (cfgZ.zstd.encode [0]).length < [0].length :=
  ⟨rfl, by decide⟩

/-- C4 (amended): with compression configured, the stored record carries the
non-empty codec tag and the encoded bytes whenever the encoded length is less
than or equal to the original length; raw bytes with an empty tag are stored
exactly when the encoded form is strictly larger. -/
theorem compression_guard_le (cfg : Config) (now : Nat) (st : State) (id : String)
    (v : Bytes) (hz : cfg.compression = "zstd") :
    ∃ st' tr doc, set_bytes cfg now st id v = some (st', tr) ∧
      st'.mongo id = some doc ∧
      ((cfg.zstd.encode v).length ≤ v.length →
        doc.content_encoding = "zstd" ∧ doc.data = cfg.zstd.encode v) ∧
      (v.length < (cfg.zstd.encode v).length →
        doc.content_encoding = "" ∧ doc.data = v) := by
  by_cases hle : (cfg.zstd.encode v).length ≤ v.length
  · have he : encodePolicy cfg v = some (cfg.zstd.encode v, "zstd") := by
      rw [encodePolicy_zstd cfg v hz, if_pos hle]
    obtain ⟨ev, hset, -⟩ := set_bytes_eq cfg now st id v (cfg.zstd.encode v) "zstd" he
    refine ⟨_, _, ⟨cfg.zstd.encode v, "zstd", dayTruncate now⟩, hset, by simp, ?_, ?_⟩
    · exact fun _ => ⟨rfl, rfl⟩
    · intro hlt
      exact absurd hle (not_le.mpr hlt)
  · have he : encodePolicy cfg v = some (v, "") := by
      rw [encodePolicy_zstd cfg v hz, if_neg hle]
    obtain ⟨ev, hset, -⟩ := set_bytes_eq cfg now st id v v "" he
    refine ⟨_, _, ⟨v, "", dayTruncate now⟩, hset, by simp, ?_, ?_⟩
    · exact fun h => absurd h hle
    · exact fun _ => ⟨rfl, rfl⟩

/-- Witness for the amended C4 at a concrete payload. -/
theorem compression_guard_le_witness :
    ∃ st' tr doc, set_bytes cfgZ 0 emptySt "a" [7] = some (st', tr) ∧
      st'.mongo "a" = some doc ∧
      ((cfgZ.zstd.encode [7]).length ≤ ([7] : Bytes).length →
        doc.content_encoding = "zstd" ∧ doc.data = cfgZ.zstd.encode [7]) ∧
      (([7] : Bytes).length < (cfgZ.zstd.encode [7]).length →
        doc.content_encoding = "" ∧ doc.data = [7]) :=
  compression_guard_le cfgZ 0 emptySt "a" [7] rfl

/-- C5 (confirmed): with compression configured, the stored tag is non-empty
exactly when the encoded form is no longer than the original payload, in which
case the encoded bytes are stored; otherwise the raw bytes are stored with an
empty tag. -/
theorem compression_tag_iff_le (cfg : Config) (now : Nat) (st : State) (id : String)
    (v : Bytes) (hz : cfg.compression = "zstd") :
    ∃ st' tr doc, set_bytes cfg now st id v = some (st', tr) ∧
      st'.mongo id = some doc ∧
      (doc.content_encoding ≠ "" ↔ (cfg.zstd.encode v).length ≤ v.length) ∧
      (doc.content_encoding ≠ "" →
        doc.data = cfg.zstd.encode v ∧ doc.content_encoding = cfg.compression) ∧
      (doc.content_encoding = "" → doc.data = v) := by
  by_cases hle : (cfg.zstd.encode v).length ≤ v.length
  · have he : encodePolicy cfg v = some (cfg.zstd.encode v, "zstd") := by
      rw [encodePolicy_zstd cfg v hz, if_pos hle]
    obtain ⟨ev, hset, -⟩ := set_bytes_eq cfg now st id v (cfg.zstd.encode v) "zstd" he
    refine ⟨_, _, ⟨cfg.zstd.encode v, "zstd", dayTruncate now⟩, hset, by simp, ?_, ?_, ?_⟩
    · simp [hle]
    · exact fun _ => ⟨rfl, hz.symm⟩
    · intro h
      exact absurd h (by simp)
  · have he : encodePolicy cfg v = some (v, "") := by
      rw [encodePolicy_zstd cfg v hz, if_neg hle]
    obtain ⟨ev, hset, -⟩ := set_bytes_eq cfg now st id v v "" he
    refine ⟨_, _, ⟨v, "", dayTruncate now⟩, hset, by simp, ?_, ?_, ?_⟩
    · simp [hle]
    · exact fun h => absurd rfl h
    · exact fun _ => rfl

/-- Witness for C5 at a concrete payload. -/
theorem compression_tag_iff_le_witness :
    ∃ st' tr doc, set_bytes cfgZ 3 emptySt "k" [1, 2] = some (st', tr) ∧
      st'.mongo "k" = some doc ∧
      (doc.content_encoding ≠ "" ↔ (cfgZ.zstd.encode [1, 2]).length ≤ ([1, 2] : Bytes).length) ∧
      (doc.content_encoding ≠ "" →
        doc.data = cfgZ.zstd.encode [1, 2] ∧ doc.content_encoding = cfgZ.compression) ∧
      (doc.content_encoding = "" → doc.data = [1, 2]) :=
  compression_tag_iff_le cfgZ 3 emptySt "k" [1, 2] rfl

/-- C6 (confirmed): assuming the configured codec decode is a left inverse of
its encode, a `set` followed by a `get` of the same id returns the original
payload, whichever branch of the compression policy was taken. -/
theorem set_get_roundtrip (cfg : Config) (now : Nat) (faults : String → S3DeleteFault)
    (st : State) (id : String) (v : Bytes)
    (hc : cfg.compression = "" ∨ cfg.compression = "zstd")
    (hinv : ∀ x, cfg.zstd.decode (cfg.zstd.encode x) = x) :
    (set_bytes cfg now st id v).map
      (fun p => (get_bytes cfg now faults p.1 id).result) = some (.ok (some v)) := by
  obtain ⟨⟨data, tag⟩, he⟩ := encodePolicy_total cfg v hc
  obtain ⟨ev, hset, -⟩ := set_bytes_eq cfg now st id v data tag he
  rw [hset]
  have hhit : (⟨fun k => if k = id then some ⟨data, tag, dayTruncate now⟩ else st.mongo k,
      st.s3⟩ : State).mongo id = some ⟨data, tag, dayTruncate now⟩ := by simp
  rw [Option.map_some', get_bytes_hit cfg now faults _ id _ hhit,
      encodePolicy_decodeDoc cfg v data tag (dayTruncate now) hc hinv he]

/-- Witness for C6 at a concrete payload, both with and without compression. -/
theorem set_get_roundtrip_witness :
    (set_bytes cfgZ 0 emptySt "a" [9, 9]).map
      (fun p => (get_bytes cfgZ 0 noFaults p.1 "a").result) = some (.ok (some [9, 9])) ∧
    (set_bytes cfgC 0 emptySt "a" [9, 9]).map
      (fun p => (get_bytes cfgC 0 noFaults p.1 "a").result) = some (.ok (some [9, 9])) :=
  ⟨set_get_roundtrip cfgZ 0 noFaults emptySt "a" [9, 9] (Or.inr rfl) (fun _ => rfl),
   set_get_roundtrip cfgC 0 noFaults emptySt "a" [9, 9] (Or.inl rfl) (fun _ => rfl)⟩

/-- C8 (confirmed): `cleanup` returns successfully for every cutoff and every
tier state, performs no effect and leaves both tiers untouched. -/
theorem cleanup_noop : ∀ (st : State) (t : Int),
    cleanup st t = ⟨st, [], .ok ()⟩ :=
  fun _ _ => rfl

/-- C9 (counterexample): an `OperationFailure` from TTL-index provisioning
whose message is not an index-option conflict is swallowed silently — the
constructor reports success with nothing provisioned instead of propagating. -/
theorem ttl_opfailure_swallowed_cex :
    provision_ttl_index (some 30) (.opFailure "network timeout") .ok
      = .ok .failureSwallowed := rfl

/-- C9 (amended): TTL-index provisioning silently swallows every
`OperationFailure` whose message does not contain the index-option-conflict
marker; only conflict messages trigger the drop-and-recreate path. -/
theorem ttl_opfailure_swallowed (ttl : Option Nat) (msg : String)
    (second : CreateIndexOutcome) (ht : ttlTruthy ttl = true)
    (hmsg : containsSub "already exists with different options".toList msg.toList = false) :
    provision_ttl_index ttl (.opFailure msg) second = .ok .failureSwallowed := by
  unfold provision_ttl_index
  rw [ht]
  show (if containsSub "already exists with different options".toList msg.toList = true then
      match second with
      | CreateIndexOutcome.ok => Except.ok TtlResult.recreated
      | CreateIndexOutcome.opFailure m2 => Except.error m2
      | CreateIndexOutcome.otherFailure m2 => Except.error m2
    else Except.ok TtlResult.failureSwallowed) = Except.ok TtlResult.failureSwallowed
  rw [hmsg]
  simp

/-- Witness for the amended C9 at a concrete failure message. -/
theorem ttl_opfailure_swallowed_witness :
    provision_ttl_index (some 14) (.opFailure "connection reset") .ok
      = .ok .failureSwallowed :=
  ttl_opfailure_swallowed (some 14) "connection reset" .ok rfl (by decide)

/-- C10 (confirmed): a successful migration-on-read stores, under the id, a
primary document whose `created_day` is the UTC-midnight truncation of the
read time itself and whose data and tag are the current compression policy
applied to the decoded archival value; the read returns that value. -/
theorem migration_restamps_created_day (cfg : Config) (now : Nat)
    (faults : String → S3DeleteFault) (st : State) (id : String) (obj : S3Obj)
    (data : Bytes) (tag : String)
    (hrs : cfg.read_from_s3 = true) (hm : st.mongo id = none)
    (hs : st.s3 (get_key_for_id cfg id) = some obj)
    (hf : faults (get_key_for_id cfg id) = .ok)
    (he : encodePolicy cfg (decodeObj cfg obj) = some (data, tag)) :
    (get_bytes cfg now faults st id).state.mongo id = some ⟨data, tag, dayTruncate now⟩ ∧
    (get_bytes cfg now faults st id).result = .ok (some (decodeObj cfg obj)) := by
  rw [get_bytes_miss cfg now faults st id hm hrs,
      read_from_bucket_migration_eq cfg now faults st id obj data tag hs hf hm he]
  exact ⟨by simp, rfl⟩

/-- Witness for C10 at a concrete archival-only id and a late-day read time. -/
theorem migration_restamps_created_day_witness :
    (get_bytes cfgC 100000 noFaults stB "b").state.mongo "b"
      = some ⟨[3], "", dayTruncate 100000⟩ ∧
    (get_bytes cfgC 100000 noFaults stB "b").result
      = .ok (some (decodeObj cfgC ⟨[3], none⟩)) :=
  migration_restamps_created_day cfgC 100000 noFaults stB "b" ⟨[3], none⟩ [3] ""
    rfl rfl rfl rfl rfl

/-- `dictHasKey` agrees with membership in the key list. -/
theorem dictHasKey_iff (d : List (String × Option Bytes)) (k : String) :
    dictHasKey d k = true ↔ k ∈ dkeys d := by
  simp [dictHasKey, dkeys, List.any_eq_true, List.mem_map]

/-- Keys of an in-place update: unchanged. -/
theorem dkeys_dictSet_mem (d : List (String × Option Bytes)) (k : String) (v : Option Bytes)
    (h : k ∈ dkeys d) : dkeys (dictSet d k v) = dkeys d := by
  unfold dictSet
  rw [if_pos ((dictHasKey_iff d k).mpr h)]
  unfold dkeys
  rw [List.map_map]
  apply List.map_congr_left
  intro p hp
  by_cases hpk : p.1 = k
  · simp [hpk]
  · simp [hpk]

/-- Keys of an appending update: the new key goes to the end. -/
theorem dkeys_dictSet_not_mem (d : List (String × Option Bytes)) (k : String)
    (v : Option Bytes) (h : k ∉ dkeys d) : dkeys (dictSet d k v) = dkeys d ++ [k] := by
  unfold dictSet
  rw [if_neg (fun hh => h ((dictHasKey_iff d k).mp hh))]
  simp [dkeys]

/-- Membership in the keys after a `dict` assignment. -/
theorem mem_dkeys_dictSet (d : List (String × Option Bytes)) (k : String) (v : Option Bytes)
    (a : String) : a ∈ dkeys (dictSet d k v) ↔ a ∈ dkeys d ∨ a = k := by
  by_cases h : k ∈ dkeys d
  · rw [dkeys_dictSet_mem d k v h]
    exact ⟨Or.inl, fun hh => hh.elim id (fun he => he ▸ h)⟩
  · rw [dkeys_dictSet_not_mem d k v h]
    simp

/-- A `dict` assignment keeps the keys duplicate-free. -/
theorem nodup_dkeys_dictSet (d : List (String × Option Bytes)) (k : String) (v : Option Bytes)
    (h : (dkeys d).Nodup) : (dkeys (dictSet d k v)).Nodup := by
  by_cases hk : k ∈ dkeys d
  · rw [dkeys_dictSet_mem d k v hk]; exact h
  · rw [dkeys_dictSet_not_mem d k v hk]
    simp [List.nodup_append, h, hk]

/-- Lookup misses exactly outside the key list. -/
theorem dlookup_eq_none (d : List (String × Option Bytes)) (k : String)
    (h : k ∉ dkeys d) : dlookup d k = none := by
  induction d with
  | nil => rfl
  | cons p rest ih =>
    simp only [dkeys, List.map_cons, List.mem_cons, not_or] at h
    unfold dlookup
    rw [if_neg (fun hpk => h.1 hpk.symm)]
    exact ih (by simpa [dkeys] using h.2)

/-- Lookup over an append, first list wins. -/
theorem dlookup_append (d e : List (String × Option Bytes)) (k : String) :
    dlookup (d ++ e) k = (dlookup d k).or (dlookup e k) := by
  induction d with
  | nil => simp [dlookup]
  | cons p rest ih =>
    by_cases hpk : p.1 = k
    · simp [dlookup, hpk]
    · simp [dlookup, hpk, ih]

/-- Lookup after an in-place update at the updated key. -/
theorem dlookup_map_update (k : String) (v : Option Bytes) :
    ∀ d : List (String × Option Bytes), dictHasKey d k = true →
      dlookup (d.map (fun p => if p.1 = k then (k, v) else p)) k = some v := by
  intro d
  induction d with
  | nil => intro h; simp [dictHasKey] at h
  | cons p rest ih =>
    intro h
    by_cases hpk : p.1 = k
    · simp [dlookup, hpk]
    · have h' : dictHasKey rest k = true := by
        simp only [dictHasKey, List.any_cons, Bool.or_eq_true, decide_eq_true_eq] at h
        rcases h with h | h
        · exact absurd h hpk
        · simpa [dictHasKey] using h
      simp [dlookup, hpk, ih h']

/-- Lookup after a `dict` assignment at the assigned key. -/
theorem dlookup_dictSet_self (d : List (String × Option Bytes)) (k : String)
    (v : Option Bytes) : dlookup (dictSet d k v) k = some v := by
  unfold dictSet
  by_cases h : dictHasKey d k = true
  · rw [if_pos h]
    exact dlookup_map_update k v d h
  · rw [if_neg h]
    have hk : k ∉ dkeys d := fun hm => h ((dictHasKey_iff d k).mpr hm)
    rw [dlookup_append, dlookup_eq_none d k hk]
    simp [dlookup]

/-- An in-place update leaves other keys' lookups unchanged. -/
theorem dlookup_map_update_ne (k : String) (v : Option Bytes) (a : String) (h : a ≠ k) :
    ∀ d : List (String × Option Bytes),
      dlookup (d.map (fun p => if p.1 = k then (k, v) else p)) a = dlookup d a := by
  intro d
  induction d with
  | nil => rfl
  | cons p rest ih =>
    by_cases hpk : p.1 = k
    · have h1 : ¬(k = a) := fun hk => h hk.symm
      simp [dlookup, hpk, h1, ih]
    · by_cases hpa : p.1 = a
      · simp [dlookup, hpk, hpa, h]
      · simp [dlookup, hpk, hpa, ih]

/-- A `dict` assignment leaves other keys' lookups unchanged. -/
theorem dlookup_dictSet_ne (d : List (String × Option Bytes)) (k : String)
    (v : Option Bytes) (a : String) (h : a ≠ k) :
    dlookup (dictSet d k v) a = dlookup d a := by
  unfold dictSet
  by_cases hh : dictHasKey d k = true
  · rw [if_pos hh]
    exact dlookup_map_update_ne k v a h d
  · rw [if_neg hh]
    rw [dlookup_append]
    have hka : ¬(k = a) := fun hk => h hk.symm
    have hnone : dlookup [(k, v)] a = none := by simp [dlookup, hka]
    rw [hnone, Option.or_none]

/-- Properties of one step of `fillAbsent`. -/
theorem fillStep_spec (res : List (String × Option Bytes)) (i : String) :
    (∀ k, k ∈ dkeys (if dictHasKey res i then res else res ++ [(i, none)]) ↔
      k ∈ dkeys res ∨ k = i) ∧
    ((dkeys res).Nodup →
      (dkeys (if dictHasKey res i then res else res ++ [(i, none)])).Nodup) ∧
    (∀ k w, dlookup res k = some w →
      dlookup (if dictHasKey res i then res else res ++ [(i, none)]) k = some w) ∧
    (i ∉ dkeys res →
      dlookup (if dictHasKey res i then res else res ++ [(i, none)]) i = some none) := by
  by_cases h : dictHasKey res i = true
  · rw [if_pos h]
    have hi : i ∈ dkeys res := (dictHasKey_iff res i).mp h
    exact ⟨fun k => ⟨Or.inl, fun hh => hh.elim id (fun he => he ▸ hi)⟩,
      fun hnd => hnd, fun _ _ hw => hw, fun hni => absurd hi hni⟩
  · rw [if_neg h]
    refine ⟨fun k => by simp [dkeys], ?_, ?_, ?_⟩
    · intro hnd
      have hni : i ∉ dkeys res := fun hm => h ((dictHasKey_iff res i).mpr hm)
      simp [dkeys, List.nodup_append]
      exact ⟨hnd, by simpa [dkeys] using hni⟩
    · intro k w hw
      rw [dlookup_append, hw]
      rfl
    · intro hni
      rw [dlookup_append, dlookup_eq_none res i hni]
      simp [dlookup]

/-- Properties of `fillAbsent`: keys become exactly the old keys plus the ids,
stay duplicate-free, existing entries are preserved, and every id that was
missing from the dict is mapped to `None`. -/
theorem fillAbsent_spec : ∀ (ids : List String) (res : List (String × Option Bytes)),
    (∀ k, k ∈ dkeys (fillAbsent res ids) ↔ k ∈ dkeys res ∨ k ∈ ids) ∧
    ((dkeys res).Nodup → (dkeys (fillAbsent res ids)).Nodup) ∧
    (∀ k w, dlookup res k = some w → dlookup (fillAbsent res ids) k = some w) ∧
    (∀ k, k ∈ ids → k ∉ dkeys res → dlookup (fillAbsent res ids) k = some none) := by
  intro ids
  induction ids with
  | nil =>
    intro res
    exact ⟨fun k => by simp [fillAbsent], fun h => h, fun _ _ h => h,
      fun k hk => absurd hk (by simp)⟩
  | cons i rest ih =>
    intro res
    have hstep : fillAbsent res (i :: rest) =
        fillAbsent (if dictHasKey res i then res else res ++ [(i, none)]) rest := rfl
    obtain ⟨smem, snd, spres, snew⟩ := fillStep_spec res i
    obtain ⟨ihmem, ihnd, ihpres, ihnew⟩ :=
      ih (if dictHasKey res i then res else res ++ [(i, none)])
    rw [hstep]
    refine ⟨?_, ?_, ?_, ?_⟩
    · intro k
      rw [ihmem k, smem k]
      simp [List.mem_cons]
      tauto
    · exact fun h => ihnd (snd h)
    · exact fun k w hw => ihpres k w (spres k w hw)
    · intro k hk hkres
      by_cases hki : k = i
      · subst hki
        exact ihpres k none (snew hkres)
      · have hkr : k ∈ rest := by
          rcases List.mem_cons.mp hk with h1 | h1
          · exact absurd h1 hki
          · exact h1
        apply ihnew k hkr
        intro hmem
        rcases (smem k).mp hmem with h1 | h1
        · exact hkres h1
        · exact hki h1

/-- Properties of the primary-hit accumulation of `_get_bytes_multi`: the
result keys are the initial keys plus the document ids, duplicate-free. -/
theorem buildRes_spec (cfg : Config) :
    ∀ (docs : List (String × Doc)) (res : List (String × Option Bytes)),
    (∀ k, k ∈ dkeys (docs.foldl (fun r p => dictSet r p.1 (some (decodeDoc cfg p.2))) res) ↔
      k ∈ dkeys res ∨ k ∈ docs.map Prod.fst) ∧
    ((dkeys res).Nodup →
      (dkeys (docs.foldl (fun r p => dictSet r p.1 (some (decodeDoc cfg p.2))) res)).Nodup) := by
  intro docs
  induction docs with
  | nil => exact fun res => ⟨fun k => by simp, fun h => h⟩
  | cons p ds ih =>
    intro res
    obtain ⟨ihmem, ihnd⟩ := ih (dictSet res p.1 (some (decodeDoc cfg p.2)))
    constructor
    · intro k
      have hfold : (p :: ds).foldl (fun r q => dictSet r q.1 (some (decodeDoc cfg q.2))) res =
          ds.foldl (fun r q => dictSet r q.1 (some (decodeDoc cfg q.2)))
            (dictSet res p.1 (some (decodeDoc cfg p.2))) := rfl
      rw [hfold, ihmem k, mem_dkeys_dictSet]
      simp [List.mem_cons]
      tauto
    · exact fun h => ihnd (nodup_dkeys_dictSet _ _ _ h)

/-- The ids carrying a document out of the batched `$in` query are exactly the
distinct input ids present in the primary tier. -/
theorem docs_keys_mem (st : State) (ids : List String) (i : String) :
    (i ∈ (ids.dedup.filterMap (fun j => (st.mongo j).map (fun d => (j, d)))).map Prod.fst) ↔
      (i ∈ ids ∧ (st.mongo i).isSome = true) := by
  simp only [List.mem_map, List.mem_filterMap, List.mem_dedup, Option.map_eq_some']
  constructor
  · rintro ⟨p, ⟨j, hj, d, hd, hp⟩, hpi⟩
    rw [← hp] at hpi
    simp only at hpi
    subst hpi
    exact ⟨hj, by rw [hd]; rfl⟩
  · rintro ⟨hi, hsome⟩
    rcases hmi : st.mongo i with _ | d
    · rw [hmi] at hsome; simp at hsome
    · exact ⟨(i, d), ⟨i, hi, d, hmi, rfl⟩, rfl⟩

/-- The archival fallback read never raises when deletes never transport-fail
and the configured compression name is empty or registered. -/
theorem read_from_bucket_result_ok (cfg : Config) (now : Nat)
    (faults : String → S3DeleteFault) (st : State) (id : String)
    (hf : faults (get_key_for_id cfg id) ≠ S3DeleteFault.transport)
    (hc : cfg.compression = "" ∨ cfg.compression = "zstd") :
    ∃ v, (read_from_bucket cfg now faults st id).result = .ok v := by
  rcases hs : st.s3 (get_key_for_id cfg id) with _ | obj
  · exact ⟨none, by rw [read_from_bucket_miss_eq cfg now faults st id hs]⟩
  · rcases hff : faults (get_key_for_id cfg id) with _ | _ | _
    · obtain ⟨⟨data, tag⟩, he⟩ := encodePolicy_total cfg (decodeObj cfg obj) hc
      refine ⟨some (decodeObj cfg obj), ?_⟩
      unfold read_from_bucket
      simp only [hs, hff]
      unfold set_bytes
      simp only [he]
    · exact ⟨some (decodeObj cfg obj),
        by rw [read_from_bucket_race_eq cfg now faults st id obj hs hff]⟩
    · exact absurd hff hf

/-- The archival fallback read only ever removes archival keys: a key absent
from the archival tier before the read is still absent afterwards. -/
theorem read_from_bucket_s3_mono (cfg : Config) (now : Nat)
    (faults : String → S3DeleteFault) (st : State) (id : String) (k : String)
    (h : st.s3 k = none) :
    (read_from_bucket cfg now faults st id).state.s3 k = none := by
  rcases hs : st.s3 (get_key_for_id cfg id) with _ | obj
  · rw [read_from_bucket_miss_eq cfg now faults st id hs]; exact h
  · rcases hff : faults (get_key_for_id cfg id) with _ | _ | _
    · unfold read_from_bucket
      simp only [hs, hff]
      rcases hsb : set_bytes cfg now (applyEvent st (Event.s3Delete (get_key_for_id cfg id)))
          id (decodeObj cfg obj) with _ | q
      · simp only [hsb, applyEvent]
        by_cases hk : k = get_key_for_id cfg id <;> simp [hk, h]
      · simp only [hsb]
        have hq := set_bytes_s3 cfg now _ id _ q.1 q.2 (by rw [hsb])
        show q.1.s3 k = none
        rw [hq]
        simp only [applyEvent]
        by_cases hk : k = get_key_for_id cfg id <;> simp [hk, h]
    · rw [read_from_bucket_race_eq cfg now faults st id obj hs hff]
      show (if k = get_key_for_id cfg id then none else st.s3 k) = none
      by_cases hk : k = get_key_for_id cfg id <;> simp [hk, h]
    · rw [read_from_bucket_transport_eq cfg now faults st id obj hs hff]; exact h

/-- Invariants of the archival fallback loop of `_get_bytes_multi`, under
fault-free deletes and a valid compression configuration: the loop succeeds,
its result keys are the initial keys plus the processed ids, stay
duplicate-free, and any processed id absent from the archival tier (and not
already mapped) ends up mapped to `None`; such archival-absent keys also stay
absent from the final state. -/
theorem multiBucketLoop_spec (cfg : Config) (now : Nat) (faults : String → S3DeleteFault)
    (hf : ∀ k, faults k ≠ S3DeleteFault.transport)
    (hc : cfg.compression = "" ∨ cfg.compression = "zstd") :
    ∀ (rest : List String) (st : State) (tr : List Event)
      (res : List (String × Option Bytes)),
    ∃ res', (multiBucketLoop cfg now faults st tr res rest).result = .ok res' ∧
      (∀ k, k ∈ dkeys res' ↔ k ∈ dkeys res ∨ k ∈ rest) ∧
      ((dkeys res).Nodup → (dkeys res').Nodup) ∧
      (∀ i, st.s3 (get_key_for_id cfg i) = none →
        (multiBucketLoop cfg now faults st tr res rest).state.s3 (get_key_for_id cfg i)
          = none ∧
        ((i ∈ rest ∨ dlookup res i = some none) → dlookup res' i = some none)) := by
  intro rest
  induction rest with
  | nil =>
    intro st tr res
    refine ⟨res, rfl, fun k => by simp, fun h => h, fun i h => ⟨h, ?_⟩⟩
    rintro (h1 | h1)
    · exact absurd h1 (by simp)
    · exact h1
  | cons id rest ih =>
    intro st tr res
    obtain ⟨v, hv⟩ := read_from_bucket_result_ok cfg now faults st id (hf _) hc
    have hstep : multiBucketLoop cfg now faults st tr res (id :: rest) =
        multiBucketLoop cfg now faults (read_from_bucket cfg now faults st id).state
          (tr ++ (read_from_bucket cfg now faults st id).trace) (dictSet res id v) rest := by
      conv_lhs => unfold multiBucketLoop
      simp only [hv]
    obtain ⟨res', hok, hmem, hnd, hclause⟩ :=
      ih (read_from_bucket cfg now faults st id).state
        (tr ++ (read_from_bucket cfg now faults st id).trace) (dictSet res id v)
    refine ⟨res', by rw [hstep]; exact hok, ?_, ?_, ?_⟩
    · intro k
      rw [hmem k, mem_dkeys_dictSet]
      simp [List.mem_cons]
      tauto
    · exact fun h => hnd (nodup_dkeys_dictSet _ _ _ h)
    · intro i hi
      have hstate := read_from_bucket_s3_mono cfg now faults st id _ hi
      obtain ⟨hst', hlk⟩ := hclause i hstate
      refine ⟨by rw [hstep]; exact hst', ?_⟩
      intro hcase
      apply hlk
      by_cases hii : i = id
      · subst hii
        have hmiss := read_from_bucket_miss_eq cfg now faults st i hi
        rw [hmiss] at hv
        have hvnone : v = none := by
          have := hv
          simp only [Except.ok.injEq] at this
          exact this.symm
        subst hvnone
        exact Or.inr (dlookup_dictSet_self res i none)
      · rcases hcase with hin | hlkp
        · rcases List.mem_cons.mp hin with h1 | h1
          · exact absurd h1 hii
          · exact Or.inl h1
        · exact Or.inr (by rw [dlookup_dictSet_ne res id v i hii]; exact hlkp)

/-- Keys of the primary-hit dict of `_get_bytes_multi`: exactly the input ids
present in the primary tier, duplicate-free. -/
theorem res1_spec (cfg : Config) (st : State) (ids : List String) :
    (∀ k, k ∈ dkeys ((ids.dedup.filterMap (fun i => (st.mongo i).map (fun d => (i, d)))).foldl
        (fun r p => dictSet r p.1 (some (decodeDoc cfg p.2))) []) ↔
      k ∈ ids ∧ (st.mongo k).isSome = true) ∧
    (dkeys ((ids.dedup.filterMap (fun i => (st.mongo i).map (fun d => (i, d)))).foldl
        (fun r p => dictSet r p.1 (some (decodeDoc cfg p.2))) [])).Nodup := by
  obtain ⟨bmem, bnd⟩ :=
    buildRes_spec cfg (ids.dedup.filterMap (fun i => (st.mongo i).map (fun d => (i, d)))) []
  constructor
  · intro k
    rw [bmem k]
    constructor
    · rintro (h1 | h1)
      · exact absurd h1 (by simp [dkeys])
      · exact (docs_keys_mem st ids k).mp h1
    · exact fun h => Or.inr ((docs_keys_mem st ids k).mpr h)
  · exact bnd (by simp [dkeys])

/-- C7 (confirmed): for every input id list, with fault-free archival deletes
and a valid compression configuration, the batched get returns (without error)
a mapping whose keys are exactly the distinct input ids, and every id absent
from both tiers is mapped to `None`. -/
theorem batchedGet_completeness (cfg : Config) (now : Nat)
    (faults : String → S3DeleteFault) (st : State) (ids : List String)
    (hf : ∀ k, faults k ≠ S3DeleteFault.transport)
    (hc : cfg.compression = "" ∨ cfg.compression = "zstd") :
    ∃ d, (get_bytes_multi cfg now faults st ids).result = .ok d ∧
      (dkeys d).Nodup ∧
      (∀ i, i ∈ dkeys d ↔ i ∈ ids) ∧
      (∀ i, i ∈ ids → st.mongo i = none → st.s3 (get_key_for_id cfg i) = none →
        dlookup d i = some none) := by
  obtain ⟨hres1mem, hres1nd⟩ := res1_spec cfg st ids
  cases hrs : cfg.read_from_s3 with
  | false =>
    have heq : get_bytes_multi cfg now faults st ids =
        ⟨st, [],
         .ok (fillAbsent
           ((ids.dedup.filterMap (fun i => (st.mongo i).map (fun d => (i, d)))).foldl
             (fun r p => dictSet r p.1 (some (decodeDoc cfg p.2))) []) ids)⟩ := by
      unfold get_bytes_multi
      rw [hrs]
      rfl
    obtain ⟨fmem, fnd, fpres, fnew⟩ := fillAbsent_spec ids
      ((ids.dedup.filterMap (fun i => (st.mongo i).map (fun d => (i, d)))).foldl
        (fun r p => dictSet r p.1 (some (decodeDoc cfg p.2))) [])
    refine ⟨_, by rw [heq], fnd hres1nd, ?_, ?_⟩
    · intro i
      rw [fmem i]
      constructor
      · rintro (h1 | h1)
        · exact ((hres1mem i).mp h1).1
        · exact h1
      · exact fun h => Or.inr h
    · intro i hi hm _
      apply fnew i hi
      intro hmem
      have h2 := ((hres1mem i).mp hmem).2
      rw [hm] at h2
      simp at h2
  | true =>
    obtain ⟨res2, hok, lmem, lnd, lclause⟩ :=
      multiBucketLoop_spec cfg now faults hf hc
        (ids.filter (fun i =>
          !(dictHasKey ((ids.dedup.filterMap (fun i => (st.mongo i).map (fun d => (i, d)))).foldl
            (fun r p => dictSet r p.1 (some (decodeDoc cfg p.2))) []) i)))
        st []
        ((ids.dedup.filterMap (fun i => (st.mongo i).map (fun d => (i, d)))).foldl
          (fun r p => dictSet r p.1 (some (decodeDoc cfg p.2))) [])
    have heq : (get_bytes_multi cfg now faults st ids).result = .ok (fillAbsent res2 ids) := by
      unfold get_bytes_multi
      rw [hrs]
      simp only [hok, if_true]
    obtain ⟨fmem, fnd, fpres, fnew⟩ := fillAbsent_spec ids res2
    refine ⟨fillAbsent res2 ids, heq, fnd (lnd hres1nd), ?_, ?_⟩
    · intro i
      rw [fmem i]
      constructor
      · rintro (h1 | h1)
        · rcases (lmem i).mp h1 with h2 | h2
          · exact ((hres1mem i).mp h2).1
          · exact (List.mem_filter.mp h2).1
        · exact h1
      · exact fun h => Or.inr h
    · intro i hi hm hs3
      have hnotres1 : i ∉ dkeys
          ((ids.dedup.filterMap (fun i => (st.mongo i).map (fun d => (i, d)))).foldl
            (fun r p => dictSet r p.1 (some (decodeDoc cfg p.2))) []) := by
        intro hmem
        have h2 := ((hres1mem i).mp hmem).2
        rw [hm] at h2
        simp at h2
      have hdk : dictHasKey
          ((ids.dedup.filterMap (fun i => (st.mongo i).map (fun d => (i, d)))).foldl
            (fun r p => dictSet r p.1 (some (decodeDoc cfg p.2))) []) i = false := by
        cases hdk : dictHasKey
            ((ids.dedup.filterMap (fun i => (st.mongo i).map (fun d => (i, d)))).foldl
              (fun r p => dictSet r p.1 (some (decodeDoc cfg p.2))) []) i
        · rfl
        · exact absurd ((dictHasKey_iff _ i).mp hdk) hnotres1
      have hmiss : i ∈ ids.filter (fun i =>
          !(dictHasKey ((ids.dedup.filterMap (fun i => (st.mongo i).map (fun d => (i, d)))).foldl
            (fun r p => dictSet r p.1 (some (decodeDoc cfg p.2))) []) i)) := by
        refine List.mem_filter.mpr ⟨hi, ?_⟩
        simp [hdk]
      obtain ⟨-, hlk⟩ := lclause i hs3
      exact fpres i none (hlk (Or.inl hmiss))

/-- Witness for C7 on a mixed id list: one archival-only id, one id in neither
tier. -/
theorem batchedGet_completeness_witness :
    ∃ d, (get_bytes_multi cfgC 0 noFaults stA ["a", "x"]).result = .ok d ∧
      (dkeys d).Nodup ∧
      (∀ i, i ∈ dkeys d ↔ i ∈ ["a", "x"]) ∧
      (∀ i, i ∈ ["a", "x"] → stA.mongo i = none → stA.s3 (get_key_for_id cfgC i) = none →
        dlookup d i = some none) :=
  batchedGet_completeness cfgC 0 noFaults stA ["a", "x"]
    (fun k => by simp [noFaults]) (Or.inl rfl)

/-- C1 (counterexample): at a concrete id that misses the primary tier and
hits the archival tier, the batched get does migrate: afterwards the primary
tier holds a record for the id and the archival tier no longer contains the
object. -/
theorem batchedGet_frame_cex :
    ((get_bytes_multi cfgC 0 noFaults stA ["a"]).state.mongo "a").isSome = true ∧
    (get_bytes_multi cfgC 0 noFaults stA ["a"]).state.s3 "a" = none ∧
    (get_bytes_multi cfgC 0 noFaults stA ["a"]).result = .ok [("a", some [1, 2])] :=
  ⟨rfl, rfl, rfl⟩

/-- C1 (amended): an id that misses the primary tier but hits the archival
tier is returned decoded by the batched get, and the batched fallback migrates
it exactly like the single-id path: after the call the primary tier holds the
re-encoded record under the id and the archival tier no longer contains the
object (shown for the singleton id list). -/
theorem batchedGet_migrates_archival_hit (cfg : Config) (now : Nat)
    (faults : String → S3DeleteFault) (st : State) (id : String) (obj : S3Obj)
    (data : Bytes) (tag : String)
    (hrs : cfg.read_from_s3 = true) (hm : st.mongo id = none)
    (hs : st.s3 (get_key_for_id cfg id) = some obj)
    (hf : faults (get_key_for_id cfg id) = .ok)
    (he : encodePolicy cfg (decodeObj cfg obj) = some (data, tag)) :
    ∃ d, (get_bytes_multi cfg now faults st [id]).result = .ok d ∧
      dlookup d id = some (some (decodeObj cfg obj)) ∧
      (get_bytes_multi cfg now faults st [id]).state.mongo id
        = some ⟨data, tag, dayTruncate now⟩ ∧
      (get_bytes_multi cfg now faults st [id]).state.s3 (get_key_for_id cfg id) = none := by
  have hr := read_from_bucket_migration_eq cfg now faults st id obj data tag hs hf hm he
  have h1 : [id].dedup = [id] := by simp
  have hgm : get_bytes_multi cfg now faults st [id] =
      ⟨⟨fun k => if k = id then some ⟨data, tag, dayTruncate now⟩ else st.mongo k,
        fun k => if k = get_key_for_id cfg id then none else st.s3 k⟩,
       [Event.s3Delete (get_key_for_id cfg id),
        Event.mongoInsert id ⟨data, tag, dayTruncate now⟩],
       .ok (fillAbsent (dictSet [] id (some (decodeObj cfg obj))) [id])⟩ := by
    unfold get_bytes_multi
    rw [hrs]
    simp only [h1, List.filterMap_cons, List.filterMap_nil, hm, Option.map_none', List.foldl_nil]
    have hmiss : List.filter (fun i => !(dictHasKey [] i)) [id] = [id] := rfl
    simp only [hmiss, if_true]
    conv_lhs => unfold multiBucketLoop
    simp only [hr]
    conv_lhs => unfold multiBucketLoop
    rfl
  obtain ⟨fmem, fnd, fpres, fnew⟩ :=
    fillAbsent_spec [id] (dictSet [] id (some (decodeObj cfg obj)))
  refine ⟨fillAbsent (dictSet [] id (some (decodeObj cfg obj))) [id], by rw [hgm], ?_, ?_, ?_⟩
  · exact fpres id (some (decodeObj cfg obj)) (dlookup_dictSet_self [] id (some (decodeObj cfg obj)))
  · rw [hgm]
    simp
  · rw [hgm]
    simp

/-- Witness for the amended C1 at a concrete archival-only id. -/
theorem batchedGet_migrates_archival_hit_witness :
    ∃ d, (get_bytes_multi cfgC 11 noFaults stB ["b"]).result = .ok d ∧
      dlookup d "b" = some (some (decodeObj cfgC ⟨[3], none⟩)) ∧
      (get_bytes_multi cfgC 11 noFaults stB ["b"]).state.mongo "b"
        = some ⟨[3], "", dayTruncate 11⟩ ∧
      (get_bytes_multi cfgC 11 noFaults stB ["b"]).state.s3 (get_key_for_id cfgC "b") = none :=
  batchedGet_migrates_archival_hit cfgC 11 noFaults stB "b" ⟨[3], none⟩ [3] ""
    rfl rfl rfl rfl rfl
